import Mathlib

/-!
Shallow embedding of the core of the `resume2site` repository
(`src/app/cleaner.py` and `src/app/generator_llm.py`), together with
theorems settling the specification claims about it.

Python strings are modelled as Lean `String`s; where proofs need to walk
characters, functions work on `List Char` (`String.toList` / `String.mk`).
Python's `str.strip()` is modelled by `trimChars` (drop leading and trailing
whitespace), `re` character classes `[a-z]`, `[A-Z]`, `\d`, `\s` by the
corresponding ASCII character predicates.
-/

namespace Resume2Site

/-- Whitespace test used to model Python's `str.strip()` and `\s`. -/
def wsp (c : Char) : Bool := c.isWhitespace

/-- Python `str.strip()` on a character list: drop leading and trailing
whitespace. -/
def trimChars (l : List Char) : List Char := (l.dropWhile wsp).rdropWhile wsp

/-- Python `str.strip()`. -/
def trimStr (s : String) : String := String.mk (trimChars s.toList)

/-- One step of the `_CAMEL` regex substitution `(?<=[a-z])(?=[A-Z])` → `" "`:
insert a space at every lowercase→uppercase boundary. -/
def decamelChars : List Char → List Char
  | [] => []
  | [c] => [c]
  | c1 :: c2 :: rest =>
    if c1.isLower && c2.isUpper then c1 :: ' ' :: decamelChars (c2 :: rest)
    else c1 :: decamelChars (c2 :: rest)

/-- Function `cleaner.decamel`: `_CAMEL.sub(" ", s or "").strip()`. -/
def decamel (s : String) : String := String.mk (trimChars (decamelChars s.toList))

/-- Python substring containment `pat in hay` (for non-empty `pat`,
and `hay in hay` when `pat` is empty). -/
def strContains (hay pat : String) : Bool := go pat.toList hay.toList
where
  go (p : List Char) : List Char → Bool
    | [] => p.isEmpty
    | c :: rest => p.isPrefixOf (c :: rest) || go p rest

/-- Split a character list at the first (leftmost) occurrence of `pat`:
the part before it and the part after it, or `none` when absent. -/
def splitFirst (pat : List Char) : List Char → Option (List Char × List Char)
  | [] => if pat.isEmpty then some ([], []) else none
  | c :: rest =>
    if pat.isPrefixOf (c :: rest) then some ([], (c :: rest).drop pat.length)
    else
      match splitFirst pat rest with
      | some (pre, post) => some (c :: pre, post)
      | none => none

/-- Python `s.split(sep, 1)[1]`: everything after the first occurrence of
`sep` in `s` (callers guard on `sep in s`; returns `""` when absent). -/
def afterFirst (s sep : String) : String :=
  match splitFirst sep.toList s.toList with
  | some (_, post) => String.mk post
  | none => ""

/-- Python `s.split(sep, 1)[0]`: everything before the first occurrence of
`sep` (the whole of `s` when `sep` is absent). -/
def beforeFirst (s sep : String) : String :=
  match splitFirst sep.toList s.toList with
  | some (pre, _) => String.mk pre
  | none => s

/-- Python `_DIGITS.sub("", raw)`: the digit characters of `raw` in order. -/
def digitsOf (raw : String) : List Char := raw.toList.filter Char.isDigit

/-- Function `cleaner.normalise_phone`, translated branch by branch: strip non-digits
with `_DIGITS.sub("", raw or "")`; `digits.startswith("48") and
len(digits) >= 11` formats the slices `[2:5]`, `[5:8]`, `[8:11]`;
`len(digits) == 9` formats `[:3]`, `[3:6]`, `[6:]`; otherwise `raw` is
returned unchanged. -/
def normalise_phone (raw : String) : String :=
  if (digitsOf raw).take 2 = ['4', '8'] ∧ 11 ≤ (digitsOf raw).length then
    "+48 " ++ String.mk (((digitsOf raw).drop 2).take 3) ++ " " ++
      String.mk (((digitsOf raw).drop 5).take 3) ++ " " ++
      String.mk (((digitsOf raw).drop 8).take 3)
  else if (digitsOf raw).length = 9 then
    "+48 " ++ String.mk ((digitsOf raw).take 3) ++ " " ++
      String.mk (((digitsOf raw).drop 3).take 3) ++ " " ++
      String.mk ((digitsOf raw).drop 6)
  else raw

/-- The `+48 DDD DDD DDD` grouping of a 9-digit sequence, as the spec words
it ("format as `+48 DDD DDD DDD`"). -/
def group9 (ds : List Char) : String :=
  "+48 " ++ String.mk (ds.take 3) ++ " " ++ String.mk ((ds.drop 3).take 3) ++
    " " ++ String.mk ((ds.drop 6).take 3)

/-- Function `normalise_phone` as worded by the spec sentence: strip all non-digit
characters; if the digit string starts with "48" and has ≥ 11 digits, format
the `+48 DDD DDD DDD` grouping of digits 2–11 (the slice `[2:11]`); else if
exactly 9 digits, the same grouping of all of them; else the raw input. -/
def normalise_phone_spec (raw : String) : String :=
  if (digitsOf raw).take 2 = ['4', '8'] ∧ 11 ≤ (digitsOf raw).length then
    group9 (((digitsOf raw).drop 2).take 9)
  else if (digitsOf raw).length = 9 then
    group9 (digitsOf raw)
  else raw

/-- A Python value that may be a `str` or a `list[str]` (the two input shapes
`cleaner._sentences` accepts). -/
abbrev StrOrList := String ⊕ List String

/-- Scanner for `_sentences`' split regex `[••\-–]\s*|\.\s+` with
`re.split` semantics: delimiter matches are removed, the fragments between
them are returned in order (a bullet glyph eats any following whitespace, a
period is a delimiter only when followed by whitespace). `skip` is true
while the greedy `\s*`/`\s+` after a delimiter is still consuming; `acc`
holds the characters of the current fragment, reversed. -/
def sentSplit : List Char → Bool → List Char → List (List Char)
  | [], _, acc => [acc.reverse]
  | c :: rest, skip, acc =>
    if skip && wsp c then
      sentSplit rest true acc
    else if c = '•' ∨ c = '-' ∨ c = '–' then
      acc.reverse :: sentSplit rest true []
    else if c = '.' ∧ (rest.head?.elim false wsp) then
      acc.reverse :: sentSplit rest true []
    else
      sentSplit rest false (c :: acc)

/-- Function `cleaner._sentences`: join a list input with spaces, strip, split on
bullet glyphs / sentence-ending periods, drop empty fragments, decamel the
surviving fragments. -/
def sentences (raw : StrOrList) : List String :=
  let s : String :=
    match raw with
    | .inl str => str
    | .inr l => String.intercalate " " l
  let bits := (sentSplit (trimChars s.toList) false []).map String.mk
  (bits.filter (fun x => x ≠ "")).map decamel

/-- Python truthiness of an optional str-or-list value (`None`, `""` and
`[]` are falsy). -/
def truthyDesc : Option StrOrList → Bool
  | none => false
  | some (.inl s) => s ≠ ""
  | some (.inr l) => !l.isEmpty

/-- Python truthiness of an optional list value. -/
def truthyBul : Option (List String) → Bool
  | none => false
  | some l => !l.isEmpty

/-- One entry of `r["experience"]`. An `Option` field models presence of the
dict key; present values are modelled as well-typed strings/lists. -/
structure ExpEntry where
  title : Option String
  position : Option String
  company : Option String
  location : Option String
  start : Option String
  startDate : Option String
  «end» : Option String
  endDate : Option String
  description : Option StrOrList
  bullets : Option (List String)
deriving DecidableEq, Repr

/-- The experience-entry body of `clean_resume` (lines 49–57 of
`cleaner.py`). `j.pop("title", j.pop("position", ""))` evaluates the inner
pop first, so both keys are always removed and `position` is the default. -/
def cleanExp (j : ExpEntry) : ExpEntry :=
  let vPos := j.position.getD ""
  { title := some (decamel (j.title.getD vPos))
    position := none
    company := some (decamel (j.company.getD ""))
    location := some (decamel (j.location.getD ""))
    start := some (j.start.getD (j.startDate.getD ""))
    startDate := none
    «end» := some (j.«end».getD (j.endDate.getD ""))
    endDate := none
    description := none
    bullets :=
      if truthyDesc j.description && !truthyBul j.bullets then
        some (sentences (j.description.getD (.inl "")))
      else j.bullets }

/-- One entry of `r["education"]`. -/
structure EduEntry where
  degree : Option String
  fieldOfStudy : Option String
  school : Option String
  location : Option String
  start : Option String
  startDate : Option String
  «end» : Option String
  endDate : Option String
  description : Option StrOrList
  bullets : Option (List String)
deriving DecidableEq, Repr

/-- The education-entry body of `clean_resume` (lines 61–70). The
description is popped only inside the `if "description" in e and not
e.get("bullets")` branch. -/
def cleanEdu (e : EduEntry) : EduEntry :=
  let deg := e.degree.getD ""
  let field := e.fieldOfStudy.getD ""
  let takeDesc := e.description.isSome && !truthyBul e.bullets
  { degree := some (decamel (trimStr (deg ++ " " ++ field)))
    fieldOfStudy := none
    school := some (decamel (e.school.getD ""))
    location := some (decamel (e.location.getD ""))
    start := some (e.start.getD (e.startDate.getD ""))
    startDate := none
    «end» := some (e.«end».getD (e.endDate.getD ""))
    endDate := none
    description := if takeDesc then none else e.description
    bullets :=
      if takeDesc then some (sentences (e.description.getD (.inl ""))) else e.bullets }

/-- A project record (`title`/`name`, `url`/`link`, optional bullets and
description). -/
structure ProjEntry where
  title : Option String
  name : Option String
  url : Option String
  link : Option String
  bullets : Option (List String)
  description : Option StrOrList
deriving DecidableEq, Repr

/-- A `r["projects"]` element: a bare string or a record. -/
abbrev ProjItem := String ⊕ ProjEntry

/-- The projects coercion of `clean_resume` (lines 73–85): every element
becomes a record with exactly `title`, `url` and `bullets`. -/
def cleanProj (p : ProjItem) : ProjItem :=
  match p with
  | .inl s =>
    .inr { title := some (decamel s), name := none, url := some "", link := none,
           bullets := some [], description := none }
  | .inr q =>
    let t := q.title.getD ""
    let titleArg := if t = "" then q.name.getD "" else t
    .inr { title := some (decamel titleArg)
           name := none
           url := some (q.url.getD (q.link.getD ""))
           link := none
           bullets :=
             some (if truthyBul q.bullets then q.bullets.getD []
                   else sentences (q.description.getD (.inl "")))
           description := none }

/-- Python `x.lower()` (case folding character by character). -/
def strLower (s : String) : String := String.mk (s.toList.map Char.toLower)

/-- The skills filter of `clean_resume` (line 90): keep `x` iff it is
non-empty, shorter than 30 characters, and `"skill" not in x.lower()`. -/
def skillKeep (x : String) : Bool :=
  x ≠ "" && x.length < 30 && !strContains (strLower x) "skill"

/-- The skills clean-up (lines 88–90), per category. -/
def cleanSkills (sk : List (String × List String)) : List (String × List String) :=
  sk.map (fun cl => (cl.1, (cl.2.filter skillKeep).map decamel))

/-- The `contact` sub-dict. Only `phone` is ever read or written by
`clean_resume`; the other contact keys pass through untouched and are
elided from the model. -/
structure Contact where
  phone : Option String
deriving DecidableEq, Repr

/-- The résumé record as `clean_resume` sees it. `Option` on a field models
presence of the corresponding dict key (`name` and `summary` are never
touched and are elided). -/
structure Resume where
  headline : Option String
  contact : Option Contact
  experience : Option (List ExpEntry)
  education : Option (List EduEntry)
  projects : Option (List ProjItem)
  skills : Option (List (String × List String))
deriving DecidableEq, Repr

/-- The contact step of `clean_resume` (lines 45–46): `if ph :=
r.get("contact", {}).get("phone"): r["contact"]["phone"] =
normalise_phone(ph)` — a missing contact or falsy phone is left alone. -/
def cleanContact : Option Contact → Option Contact
  | none => none
  | some c =>
    match c.phone with
    | some ph => if ph ≠ "" then some { c with phone := some (normalise_phone ph) } else some c
    | none => some c

/-- The purge predicate `j.get("title")` for experience entries. -/
def expKeep (j : ExpEntry) : Bool := j.title.getD "" ≠ ""

/-- The purge predicate `e.get("degree")` for education entries. -/
def eduKeep (e : EduEntry) : Bool := e.degree.getD "" ≠ ""

/-- The purge predicate `p.get("title")` for projects. The bare-string case
cannot occur after the coercion, which only produces records. -/
def projKeep : ProjItem → Bool
  | .inl _ => false
  | .inr q => q.title.getD "" ≠ ""

/-- Function `cleaner.clean_resume`. The result is `Except` because the purge step
(lines 93–94) reads `r["experience"]` and `r["education"]` with bare
indexing, which raises `KeyError` when the key is absent (the earlier loops
use `r.get(..., [])` and so do not create the keys). `r["projects"]` is
always written at line 85, so the projects purge cannot raise. -/
def clean_resume (r : Resume) : Except String Resume :=
  let headline' := some (decamel (r.headline.getD ""))
  let contact' := cleanContact r.contact
  let projects' := (r.projects.getD []).map cleanProj
  let skills' := r.skills.map cleanSkills
  match r.experience, r.education with
  | some exps, some edus =>
    .ok { headline := headline'
          contact := contact'
          experience := some ((exps.map cleanExp).filter expKeep)
          education := some ((edus.map cleanEdu).filter eduKeep)
          projects := some (projects'.filter projKeep)
          skills := skills' }
  | none, _ => .error "KeyError: experience"
  | some _, none => .error "KeyError: education"

/-! ## `src/app/generator_llm.py` -/

/-- Match positions of `pat` in `l` (indices `i` such that `pat` is a prefix
of `l.drop i`), in increasing order; the basis for Python's `str.find` and
`str.rfind`. -/
def idxMatches (pat l : List Char) : List Nat :=
  (List.range (l.length + 1)).filter (fun i => pat.isPrefixOf (l.drop i))

/-- Python `str.find` (`none` models `-1`). -/
def firstIdxOf (pat l : List Char) : Option Nat := (idxMatches pat l).head?

/-- Python `str.rfind` (`none` models `-1`). -/
def lastIdxOf (pat l : List Char) : Option Nat := (idxMatches pat l).getLast?

/-- Drop the last `n` elements (the tail end of a Python slice `[i:-n]`). -/
def dropLastN (n : Nat) (l : List Char) : List Char := l.take (l.length - n)

/-- The code-fence fallback of `_extract_html` (lines 297–307): strip the
raw output, then remove a wrapping ```` ```html ```` or ```` ``` ````
fence if present, else return the stripped output as-is. -/
def extractFallback (raw : String) : String :=
  let stripped := trimStr raw
  let sl := stripped.toList
  if "```html".toList.isPrefixOf sl && "```".toList.isSuffixOf sl then
    trimStr (String.mk (dropLastN 3 (sl.drop 7)))
  else if "```".toList.isPrefixOf sl && "```".toList.isSuffixOf sl then
    trimStr (String.mk (dropLastN 3 (sl.drop 3)))
  else stripped

/-- Function `generator_llm._extract_html` (lines 282–307): find the first
`<!doctype html>` and the last `</html>` case-insensitively; if both exist
in order, slice between them inclusive; otherwise fall back to the
code-fence handling. -/
def _extract_html (raw : String) : String :=
  let chars := raw.toList
  let lower := chars.map Char.toLower
  match firstIdxOf "<!doctype html>".toList lower, lastIdxOf "</html>".toList lower with
  | some ds, some he =>
    if ds < he then String.mk ((chars.drop ds).take (he + 7 - ds))
    else extractFallback raw
  | some _, none => extractFallback raw
  | none, _ => extractFallback raw

/-- Placeholder plan for a cached résumé blob without a `"PLAN:"` marker
(line 397). -/
def planPlaceholder : String := "Plan details not found in expected format in cache."

/-- Placeholder reason on the cached path (line 404). -/
def reasonPlaceholderCached : String := "Reason not found in expected format in cache."

/-- Placeholder reason on the fresh path (line 434). -/
def reasonPlaceholderFresh : String :=
  "Could not determine reason for invalid resume (output format unexpected)."

/-- The cache-hit parser of `_generate_website_plan` (lines 384–405). The
code computes `is_resume_line` with `cached_content.split("\\n", 1)[0]`,
splitting on the literal two-character sequence backslash-`n`, not on a
newline — so for ordinary blobs `is_resume_line` is the whole blob. -/
def planParseCached (cached_content : String) : Option String × Bool × Option String :=
  let is_resume_line := beforeFirst cached_content "\\n"
  let is_resume := strContains is_resume_line "IS_RESUME: TRUE"
  if is_resume then
    if strContains cached_content "PLAN:" then
      (some (trimStr (afterFirst cached_content "PLAN:")), true, none)
    else
      (some planPlaceholder, true, none)
  else
    if strContains cached_content "REASON:" then
      (none, false, some (trimStr (afterFirst cached_content "REASON:")))
    else
      (none, false, some reasonPlaceholderCached)

/-- The cache-miss parser of `_generate_website_plan` (lines 420–437),
applied to the already-stripped model reply: on the résumé branch the
whole stripped reply is returned as the plan. -/
def planParseFresh (plan_output : String) : Option String × Bool × Option String :=
  let is_resume_line := beforeFirst plan_output "\\n"
  let is_resume := strContains is_resume_line "IS_RESUME: TRUE"
  if is_resume then
    (some (trimStr plan_output), true, none)
  else
    if strContains plan_output "REASON:" then
      (none, false, some (trimStr (afterFirst plan_output "REASON:")))
    else
      (none, false, some reasonPlaceholderFresh)

/-- Observable outcome of one `_generate_website_plan` call: the returned
triple, the blob written to the plan cache, and the number of model calls. -/
structure PlanCall where
  result : Option String × Bool × Option String
  cacheWrite : Option String
  chatCalls : Nat
deriving DecidableEq, Repr

/-- Function `_generate_website_plan` (lines 369–437), with the plan-cache entry for
this text's fingerprint and the model's raw reply passed as explicit
state/oracle (`chat` and the filesystem are external collaborators). -/
def _generate_website_plan (cached : Option String) (reply : String) : PlanCall :=
  match cached with
  | some c => { result := planParseCached c, cacheWrite := none, chatCalls := 0 }
  | none =>
    let plan_output := trimStr reply
    { result := planParseFresh plan_output, cacheWrite := some plan_output, chatCalls := 1 }

/-- Constant `generator_llm._MAX_FIX_ATTEMPTS` (line 42). -/
def _MAX_FIX_ATTEMPTS : Nat := 2

/-- The generation/fix loop of `generate_html_llm` (lines 489–568),
parameterised by the validator (`_validate_html_css` is backed by the
external `html5lib`/`cssutils` libraries) and by the model's reply to each
attempt. Returns the final document, the number of model calls made, and
whether validation passed; `fuel` counts the attempts remaining after the
current one. On the last attempt a failing document is returned anyway. -/
def runAttempts (validate : String → List String) (replies : Nat → String) :
    Nat → Nat → String × Nat × Bool
  | attempt, 0 =>
    let html := _extract_html (replies attempt)
    (html, 1, (validate html).isEmpty)
  | attempt, fuel + 1 =>
    let html := _extract_html (replies attempt)
    if (validate html).isEmpty then (html, 1, true)
    else
      let (h, n, v) := runAttempts validate replies (attempt + 1) fuel
      (h, n + 1, v)

/-- Observable outcome of one `generate_html_llm` call: the returned string,
the HTML-cache write, the number of model calls in the generation loop, and
the emitted status strings (only the claim-relevant refusal messages are
modelled; the remaining progress strings are an observability hook whose
absence does not change behaviour). -/
structure GenOutcome where
  html : String
  cacheWrite : Option String
  chatCalls : Nat
  statuses : List String
deriving DecidableEq, Repr

/-- Function `generate_html_llm` (lines 440–573) after the plan stage: takes the plan
stage's returned triple, the HTML-cache entry for this input's fingerprint,
the validator and the model replies; `cb` records whether a
`status_callback` was supplied. -/
def generate_html_llm (planRes : Option String × Bool × Option String)
    (htmlCache : Option String) (validate : String → List String)
    (replies : Nat → String) (cb : Bool) : GenOutcome :=
  let (website_plan, is_resume, reason) := planRes
  if !is_resume then
    { html := "", cacheWrite := none, chatCalls := 0
      statuses :=
        if cb then
          ["❌ The provided text does not appear to be a valid resume. Reason: " ++
            reason.getD "None"]
        else [] }
  else if website_plan.getD "" = "" then
    { html := "", cacheWrite := none, chatCalls := 0
      statuses :=
        if cb then
          ["❌ Failed to generate a website plan, even though input was considered a resume."]
        else [] }
  else
    match htmlCache with
    | some hit => { html := hit, cacheWrite := none, chatCalls := 0, statuses := [] }
    | none =>
      let (html, n, _) := runAttempts validate replies 0 _MAX_FIX_ATTEMPTS
      { html := html, cacheWrite := some html, chatCalls := n, statuses := [] }

/-- Function `apply_user_changes_llm` (lines 576–644): the model call, extraction and
validation all sit inside one `try`; on any invocation error the original
`current_html` is returned unchanged. On success the extracted document is
validated, but the (possibly imperfect) result is returned either way. -/
def apply_user_changes_llm (validate : String → List String)
    (current_html : String) (chatResult : Except String String) : String :=
  match chatResult with
  | .error _ => current_html
  | .ok raw =>
    let modified_html := _extract_html raw
    let _validation_errors := validate modified_html
    modified_html

/-- Modelled from the spec: the Quality Heuristics & Tweak Loop of spec §4.6
is missing from `src/` — `generate_html_llm` only mentions it ("proceed to
visual analysis or caching", line 544) and caches immediately after
validation. Following the spec's words, one tweak iteration takes the
current structurally valid document and the model's tweaked reply, extracts
the document exactly as in §4.4, re-validates structurally, accepts the
tweaked document only when it is valid, and otherwise discards the tweak and
keeps the prior valid document. -/
def tweakStep (validate : String → List String) (current tweakReply : String) : String :=
  let tweaked := _extract_html tweakReply
  if (validate tweaked).isEmpty then tweaked else current

/-! ## Lemmas about trimming -/

theorem dropWhile_head_false {p : Char → Bool} (l : List Char) {x : Char} {xs : List Char}
    (h : l.dropWhile p = x :: xs) : p x = false := by
  induction l with
  | nil => simp at h
  | cons a as ih =>
    rw [List.dropWhile_cons] at h
    split at h
    · exact ih h
    · next hp =>
      cases h
      simpa using hp

theorem trimChars_head_not_ws {l : List Char} {x : Char} {xs : List Char}
    (h : trimChars l = x :: xs) : wsp x = false := by
  unfold trimChars at h
  obtain ⟨t, ht⟩ := List.rdropWhile_prefix (p := wsp) (l := l.dropWhile wsp)
  rw [h] at ht
  exact dropWhile_head_false l ht.symm

theorem dropWhile_trimChars (l : List Char) :
    (trimChars l).dropWhile wsp = trimChars l := by
  cases h : trimChars l with
  | nil => rfl
  | cons x xs =>
    rw [List.dropWhile_cons, trimChars_head_not_ws h]
    simp

theorem rdropWhile_trimChars (l : List Char) :
    (trimChars l).rdropWhile wsp = trimChars l := by
  unfold trimChars
  rw [List.rdropWhile_eq_self_iff]
  intro hl
  exact List.rdropWhile_last_not wsp _ hl

theorem trimChars_idem (l : List Char) : trimChars (trimChars l) = trimChars l := by
  show ((trimChars l).dropWhile wsp).rdropWhile wsp = trimChars l
  rw [dropWhile_trimChars, rdropWhile_trimChars]

theorem trimChars_within (l : List Char) : trimChars l <:+: l := by
  obtain ⟨t, ht⟩ := List.rdropWhile_prefix (p := wsp) (l := l.dropWhile wsp)
  obtain ⟨s, hs⟩ := List.dropWhile_suffix (p := wsp) (l := l)
  refine ⟨s, t, ?_⟩
  rw [List.append_assoc]
  show s ++ (List.rdropWhile wsp (List.dropWhile wsp l) ++ t) = l
  rw [ht, hs]

theorem trimChars_append_space (l : List Char) :
    trimChars (trimChars l ++ [' ']) = trimChars l := by
  cases h : trimChars l with
  | nil =>
    show trimChars [' '] = []
    rfl
  | cons x xs =>
    show (((x :: xs) ++ [' ']).dropWhile wsp).rdropWhile wsp = x :: xs
    rw [List.cons_append, List.dropWhile_cons,
      show wsp x = false from trimChars_head_not_ws h]
    simp only [Bool.false_eq_true, if_false]
    rw [← List.cons_append, List.rdropWhile_concat_pos _ _ ' ' (by decide), ← h,
      rdropWhile_trimChars]

/-! ## Lemmas about `decamel` -/

/-- No lowercase→uppercase boundary between two adjacent characters (the
`_CAMEL` regex finds nothing). -/
def noCamelStep (a b : Char) : Prop := a.isLower = true → b.isUpper = false

theorem decamelChars_head : ∀ (c : Char) (xs : List Char),
    ∃ t, decamelChars (c :: xs) = c :: t
  | _, [] => ⟨[], rfl⟩
  | c, c2 :: rest => by
    unfold decamelChars
    by_cases h : (c.isLower && c2.isUpper) = true
    · exact ⟨' ' :: decamelChars (c2 :: rest), by rw [if_pos h]⟩
    · exact ⟨decamelChars (c2 :: rest), by rw [if_neg h]⟩

theorem chain_decamelChars : ∀ l : List Char, List.Chain' noCamelStep (decamelChars l)
  | [] => by simp [decamelChars]
  | [c] => by simp [decamelChars]
  | c1 :: c2 :: rest => by
    have ih := chain_decamelChars (c2 :: rest)
    obtain ⟨t, ht⟩ := decamelChars_head c2 rest
    rw [ht] at ih
    unfold decamelChars
    by_cases h : (c1.isLower && c2.isUpper) = true
    · rw [if_pos h, ht]
      refine List.Chain'.cons ?_ (List.Chain'.cons ?_ ih)
      · intro _; decide
      · intro hsp; exact absurd hsp (by decide)
    · rw [if_neg h, ht]
      refine List.Chain'.cons ?_ ih
      intro hlow
      cases hupp : c2.isUpper
      · rfl
      · exact absurd (by simp [hlow, hupp]) h

theorem decamelChars_of_chain : ∀ l : List Char,
    List.Chain' noCamelStep l → decamelChars l = l
  | [], _ => rfl
  | [_], _ => rfl
  | c1 :: c2 :: rest, h => by
    rw [List.chain'_cons] at h
    unfold decamelChars
    have hcond : (c1.isLower && c2.isUpper) = false := by
      cases hlow : c1.isLower
      · simp
      · simp [h.1 hlow]
    rw [hcond]
    simp only [Bool.false_eq_true, if_false, List.cons.injEq, true_and]
    exact decamelChars_of_chain (c2 :: rest) h.2

theorem toList_mk (l : List Char) : (String.mk l).toList = l := rfl

theorem decamel_toList (s : String) :
    (decamel s).toList = trimChars (decamelChars s.toList) := rfl

theorem decamel_idem (s : String) : decamel (decamel s) = decamel s := by
  have hchain := List.Chain'.infix (chain_decamelChars s.toList)
    (trimChars_within (decamelChars s.toList))
  show String.mk (trimChars (decamelChars (decamel s).toList)) = decamel s
  rw [decamel_toList, decamelChars_of_chain _ hchain, trimChars_idem]
  rfl

theorem decamel_empty : decamel "" = "" := rfl

theorem trimStr_decamel_append_space (x : String) :
    trimStr (decamel x ++ " ") = decamel x := by
  show String.mk (trimChars (decamel x ++ " ").toList) = decamel x
  have hdata : (decamel x ++ " ").toList = trimChars (decamelChars x.toList) ++ [' '] := by
    show (decamel x ++ " ").data = _
    rw [String.data_append]
    rfl
  rw [hdata, trimChars_append_space]
  rfl

/-! ## Lemmas about `normalise_phone` -/

theorem digits_of_slice (raw : String) (n k : Nat) :
    ∀ x ∈ ((digitsOf raw).drop n).take k, x.isDigit = true := fun x hx =>
  (List.mem_filter.mp (List.mem_of_mem_drop (List.mem_of_mem_take hx))).2

theorem digits_of_drop (raw : String) (n : Nat) :
    ∀ x ∈ (digitsOf raw).drop n, x.isDigit = true := fun x hx =>
  (List.mem_filter.mp (List.mem_of_mem_drop hx)).2

theorem digits_of_take (raw : String) (k : Nat) :
    ∀ x ∈ (digitsOf raw).take k, x.isDigit = true := fun x hx =>
  (List.mem_filter.mp (List.mem_of_mem_take hx)).2

theorem digitsOf_formatted (a b c : List Char)
    (ha : ∀ x ∈ a, x.isDigit = true) (hb : ∀ x ∈ b, x.isDigit = true)
    (hc : ∀ x ∈ c, x.isDigit = true) :
    digitsOf ("+48 " ++ String.mk a ++ " " ++ String.mk b ++ " " ++ String.mk c) =
      '4' :: '8' :: (a ++ (b ++ c)) := by
  unfold digitsOf
  have hdata : ("+48 " ++ String.mk a ++ " " ++ String.mk b ++ " " ++ String.mk c).toList
      = ['+', '4', '8', ' '] ++ a ++ [' '] ++ b ++ [' '] ++ c := by
    show (_ : String).data = _
    simp only [String.data_append]
  rw [hdata]
  simp only [List.filter_append, List.filter_eq_self.mpr ha, List.filter_eq_self.mpr hb,
    List.filter_eq_self.mpr hc,
    show List.filter Char.isDigit ['+', '4', '8', ' '] = ['4', '8'] from by decide,
    show List.filter Char.isDigit [' '] = [] from by decide]
  simp

/-- Function `normalise_phone` fixes any string already in `+48 DDD DDD DDD` shape. -/
theorem normalise_phone_formatted (a b c : List Char)
    (ha3 : a.length = 3) (hb3 : b.length = 3) (hc3 : c.length = 3)
    (hda : ∀ x ∈ a, x.isDigit = true) (hdb : ∀ x ∈ b, x.isDigit = true)
    (hdc : ∀ x ∈ c, x.isDigit = true) :
    normalise_phone ("+48 " ++ String.mk a ++ " " ++ String.mk b ++ " " ++ String.mk c)
      = "+48 " ++ String.mk a ++ " " ++ String.mk b ++ " " ++ String.mk c := by
  have hdig := digitsOf_formatted a b c hda hdb hdc
  have hcond : (digitsOf ("+48 " ++ String.mk a ++ " " ++ String.mk b ++ " " ++
      String.mk c)).take 2 = ['4', '8'] ∧
      11 ≤ (digitsOf ("+48 " ++ String.mk a ++ " " ++ String.mk b ++ " " ++
        String.mk c)).length := by
    rw [hdig]
    refine ⟨rfl, ?_⟩
    simp [ha3, hb3, hc3]
  unfold normalise_phone
  rw [if_pos hcond, hdig]
  have e1 : (('4' :: '8' :: (a ++ (b ++ c))).drop 2).take 3 = a := by
    show (a ++ (b ++ c)).take 3 = a
    exact List.take_left' ha3
  have e2 : (('4' :: '8' :: (a ++ (b ++ c))).drop 5).take 3 = b := by
    show ((a ++ (b ++ c)).drop 3).take 3 = b
    rw [List.drop_left' ha3]
    exact List.take_left' hb3
  have e3 : (('4' :: '8' :: (a ++ (b ++ c))).drop 8).take 3 = c := by
    show ((a ++ (b ++ c)).drop 6).take 3 = c
    rw [← List.append_assoc, List.drop_left' (by simp [ha3, hb3])]
    exact List.take_of_length_le (le_of_eq hc3)
  rw [e1, e2, e3]

theorem normalise_phone_idem (raw : String) :
    normalise_phone (normalise_phone raw) = normalise_phone raw := by
  by_cases h1 : (digitsOf raw).take 2 = ['4', '8'] ∧ 11 ≤ (digitsOf raw).length
  · have hout : normalise_phone raw = "+48 " ++ String.mk (((digitsOf raw).drop 2).take 3)
        ++ " " ++ String.mk (((digitsOf raw).drop 5).take 3) ++ " " ++
        String.mk (((digitsOf raw).drop 8).take 3) := by
      unfold normalise_phone
      rw [if_pos h1]
    rw [hout]
    exact normalise_phone_formatted _ _ _
      (by simp [List.length_take, List.length_drop]; omega)
      (by simp [List.length_take, List.length_drop]; omega)
      (by simp [List.length_take, List.length_drop]; omega)
      (digits_of_slice raw 2 3) (digits_of_slice raw 5 3) (digits_of_slice raw 8 3)
  · by_cases h2 : (digitsOf raw).length = 9
    · have hout : normalise_phone raw = "+48 " ++ String.mk ((digitsOf raw).take 3)
          ++ " " ++ String.mk (((digitsOf raw).drop 3).take 3) ++ " " ++
          String.mk ((digitsOf raw).drop 6) := by
        unfold normalise_phone
        rw [if_neg h1, if_pos h2]
      rw [hout]
      have htake : (digitsOf raw).take 3 = ((digitsOf raw).drop 0).take 3 := rfl
      exact normalise_phone_formatted _ _ _
        (by simp [List.length_take]; omega)
        (by simp [List.length_take, List.length_drop]; omega)
        (by simp [List.length_drop]; omega)
        (digits_of_take raw 3) (digits_of_slice raw 3 3) (digits_of_drop raw 6)
    · have hout : normalise_phone raw = raw := by
        unfold normalise_phone
        rw [if_neg h1, if_neg h2]
      rw [hout]
      unfold normalise_phone
      rw [if_neg h1, if_neg h2]

theorem normalise_phone_ne_empty (raw : String) (h : raw ≠ "") :
    normalise_phone raw ≠ "" := by
  unfold normalise_phone
  split
  · intro hc
    have := congrArg String.data hc
    simp [String.data_append] at this
  · split
    · intro hc
      have := congrArg String.data hc
      simp [String.data_append] at this
    · exact h

/-! ## Claim C2: `normalise_phone` agrees with the spec's wording -/

/-- C2. `normalise_phone` strips all non-digit characters; on a digit
string starting with "48" of length ≥ 11 it returns the `+48 DDD DDD DDD`
grouping of the slice `[2:11]`; on a 9-digit string the same grouping of
all nine digits; otherwise the raw input unchanged — i.e. it agrees
pointwise with `normalise_phone_spec`, the claim's own wording. -/
theorem normalise_phone_eq_spec (raw : String) :
    normalise_phone raw = normalise_phone_spec raw := by
  unfold normalise_phone normalise_phone_spec group9
  by_cases h1 : (digitsOf raw).take 2 = ['4', '8'] ∧ 11 ≤ (digitsOf raw).length
  · rw [if_pos h1, if_pos h1]
    have e1 : (((digitsOf raw).drop 2).take 9).take 3 = ((digitsOf raw).drop 2).take 3 := by
      rw [List.take_take]
      norm_num
    have e2 : ((((digitsOf raw).drop 2).take 9).drop 3).take 3
        = ((digitsOf raw).drop 5).take 3 := by
      rw [List.drop_take, List.take_take, List.drop_drop]
      norm_num
    have e3 : ((((digitsOf raw).drop 2).take 9).drop 6).take 3
        = ((digitsOf raw).drop 8).take 3 := by
      rw [List.drop_take, List.take_take, List.drop_drop]
      norm_num
    rw [e1, e2, e3]
  · rw [if_neg h1, if_neg h1]
    by_cases h2 : (digitsOf raw).length = 9
    · rw [if_pos h2, if_pos h2]
      have e3 : ((digitsOf raw).drop 6).take 3 = (digitsOf raw).drop 6 :=
        List.take_of_length_le (by simp [List.length_drop, h2])
      rw [e3]
    · rw [if_neg h2, if_neg h2]

/-! ## Idempotence of the per-entry cleaners -/

theorem sentences_empty : sentences (.inl "") = [] := rfl

theorem map_self {α : Type} (f : α → α) : ∀ l : List α, (∀ x ∈ l, f x = x) → l.map f = l
  | [], _ => rfl
  | a :: as, h => by
    rw [List.map_cons, h a (by simp), map_self f as (fun x hx => h x (by simp [hx]))]

theorem filter_map_fixed {α : Type} (f : α → α) (P : α → Bool) (l : List α)
    (hf : ∀ x, f (f x) = f x) :
    (((l.map f).filter P).map f).filter P = (l.map f).filter P := by
  have h1 : ∀ x ∈ (l.map f).filter P, f x = x := by
    intro x hx
    obtain ⟨y, _, rfl⟩ := List.mem_map.mp (List.mem_filter.mp hx).1
    exact hf y
  rw [map_self f _ h1]
  exact List.filter_eq_self.mpr fun a ha => (List.mem_filter.mp ha).2

theorem cleanExp_idem (j : ExpEntry) : cleanExp (cleanExp j) = cleanExp j := by
  simp [cleanExp, truthyDesc, decamel_idem]

theorem cleanEdu_idem (e : EduEntry) : cleanEdu (cleanEdu e) = cleanEdu e := by
  have hdeg : ∀ s : String, decamel (trimStr (decamel s ++ " ")) = decamel s := by
    intro s
    rw [trimStr_decamel_append_space, decamel_idem]
  rcases hdesc : e.description with _ | v
  · simp [cleanEdu, hdesc, truthyBul, decamel_idem]
    exact hdeg _
  · rcases hbul : e.bullets with _ | l
    · simp [cleanEdu, hdesc, hbul, truthyBul, decamel_idem]
      exact hdeg _
    · cases l with
      | nil =>
        simp [cleanEdu, hdesc, hbul, truthyBul, decamel_idem]
        exact hdeg _
      | cons b bs =>
        simp [cleanEdu, hdesc, hbul, truthyBul, decamel_idem]
        exact hdeg _

/-- Function `cleanProj` fixes any record already in coerced shape, up to decameling
the title again. -/
theorem cleanProj_fix (T U : String) (B : List String) :
    cleanProj (.inr
      { title := some T
        name := none
        url := some U
        link := none
        bullets := some B
        description := none })
    = .inr
      { title := some (decamel T)
        name := none
        url := some U
        link := none
        bullets := some B
        description := none } := by
  by_cases hT : T = ""
  · cases B <;> simp [cleanProj, hT, truthyBul, sentences_empty]
  · cases B <;> simp [cleanProj, hT, truthyBul, sentences_empty]

theorem cleanProj_idem (p : ProjItem) : cleanProj (cleanProj p) = cleanProj p := by
  rcases p with s | q
  · have h1 : cleanProj (.inl s) = .inr
        { title := some (decamel s)
          name := none
          url := some ""
          link := none
          bullets := some []
          description := none } := rfl
    rw [h1, cleanProj_fix, decamel_idem]
  · have h1 : cleanProj (.inr q) = .inr
        { title := some (decamel (if q.title.getD "" = "" then q.name.getD ""
            else q.title.getD ""))
          name := none
          url := some (q.url.getD (q.link.getD ""))
          link := none
          bullets := some (if truthyBul q.bullets then q.bullets.getD []
            else sentences (q.description.getD (.inl "")))
          description := none }  := rfl
    rw [h1, cleanProj_fix, decamel_idem]

theorem cleanContact_idem (c0 : Option Contact) :
    cleanContact (cleanContact c0) = cleanContact c0 := by
  rcases c0 with _ | c
  · rfl
  · rcases hp : c.phone with _ | ph
    · simp [cleanContact, hp]
    · by_cases hne : ph = ""
      · simp [cleanContact, hp, hne]
      · simp [cleanContact, hp, hne, normalise_phone_ne_empty ph hne, normalise_phone_idem]

theorem cleanSkills_idem_of (sk : List (String × List String))
    (hsk : ∀ p ∈ cleanSkills sk, ∀ x ∈ p.2, skillKeep x = true) :
    cleanSkills (cleanSkills sk) = cleanSkills sk := by
  show (cleanSkills sk).map _ = cleanSkills sk
  apply map_self
  intro cl hcl
  obtain ⟨cl0, _, rfl⟩ := List.mem_map.mp hcl
  have hx := hsk _ hcl
  show (_, _) = (_, _)
  refine congrArg _ ?_
  rw [List.filter_eq_self.mpr hx]
  apply map_self
  intro x hxmem
  obtain ⟨y, _, rfl⟩ := List.mem_map.mp hxmem
  exact decamel_idem y

/-! ## Shape of `clean_resume`'s results -/

theorem clean_resume_ok_shape (r : Resume) (exps : List ExpEntry) (edus : List EduEntry)
    (hexp : r.experience = some exps) (hedu : r.education = some edus) :
    clean_resume r = .ok
      { headline := some (decamel (r.headline.getD ""))
        contact := cleanContact r.contact
        experience := some ((exps.map cleanExp).filter expKeep)
        education := some ((edus.map cleanEdu).filter eduKeep)
        projects := some (((r.projects.getD []).map cleanProj).filter projKeep)
        skills := r.skills.map cleanSkills } := by
  unfold clean_resume
  rw [hexp, hedu]

theorem clean_resume_err_exp (r : Resume) (hexp : r.experience = none) :
    clean_resume r = .error "KeyError: experience" := by
  unfold clean_resume
  rw [hexp]

theorem clean_resume_err_edu (r : Resume) (exps : List ExpEntry)
    (hexp : r.experience = some exps) (hedu : r.education = none) :
    clean_resume r = .error "KeyError: education" := by
  unfold clean_resume
  rw [hexp, hedu]

/-! ## Claim C1: idempotence of `clean_resume` -/

/-- C1 (amended). `clean_resume` is idempotent on every record on which it
is defined, provided every skills entry of the cleaned record still passes
the skills filter (non-empty, shorter than 30 characters, no "skill"
substring). Without that proviso idempotence fails: the skills filter is
applied to the raw entry but `decamel` is applied afterwards, so a cleaned
entry can become empty or grow to ≥ 30 characters and be dropped by a
second pass. -/
theorem clean_resume_idem (r r₁ : Resume) (h : clean_resume r = .ok r₁)
    (hsk : ∀ p ∈ r₁.skills.getD [], ∀ x ∈ p.2, skillKeep x = true) :
    clean_resume r₁ = .ok r₁ := by
  cases hexp : r.experience with
  | none =>
    rw [clean_resume_err_exp r hexp] at h
    exact absurd h (by simp)
  | some exps =>
    cases hedu : r.education with
    | none =>
      rw [clean_resume_err_edu r exps hexp hedu] at h
      exact absurd h (by simp)
    | some edus =>
      rw [clean_resume_ok_shape r exps edus hexp hedu] at h
      injection h with h'
      subst h'
      rw [clean_resume_ok_shape _ ((exps.map cleanExp).filter expKeep)
        ((edus.map cleanEdu).filter eduKeep) rfl rfl]
      refine congrArg Except.ok ?_
      congr 1
      · simp [decamel_idem]
      · exact cleanContact_idem r.contact
      · exact congrArg some (filter_map_fixed cleanExp expKeep exps cleanExp_idem)
      · exact congrArg some (filter_map_fixed cleanEdu eduKeep edus cleanEdu_idem)
      · exact congrArg some
          (filter_map_fixed cleanProj projKeep (r.projects.getD []) cleanProj_idem)
      · cases hsks : r.skills with
        | none => rfl
        | some sk =>
          rw [hsks] at hsk
          simp only [Option.map_some', Option.getD_some] at hsk ⊢
          exact congrArg some (cleanSkills_idem_of sk hsk)

deriving instance DecidableEq for Except

/-- A record whose single skills entry `" "` survives the raw filter but
decamels to `""`. -/
def skewedSkills : Resume :=
  { headline := none
    contact := none
    experience := some []
    education := some []
    projects := none
    skills := some [("core", [" "])] }

/-- The value of `clean_resume skewedSkills`. -/
def skewedSkillsClean : Resume :=
  { headline := some ""
    contact := none
    experience := some []
    education := some []
    projects := some []
    skills := some [("core", [""])] }

/-- C1 counterexample: `clean_resume` is not idempotent as claimed. The
record with skills `[" "]` cleans to skills `[""]`, and a second pass drops
the now-empty entry, giving a different record. -/
theorem clean_resume_not_idem :
    clean_resume skewedSkills = .ok skewedSkillsClean ∧
    clean_resume skewedSkillsClean ≠ .ok skewedSkillsClean := by
  constructor
  · decide
  · decide

/-- A well-behaved record for the witness. -/
def tidyRec : Resume :=
  { headline := some "aB"
    contact := some { phone := some "555123456" }
    experience := some []
    education := some []
    projects := none
    skills := some [("core", ["Python"])] }

/-- The value of `clean_resume tidyRec`. -/
def tidyRecClean : Resume :=
  { headline := some "a B"
    contact := some { phone := some "+48 555 123 456" }
    experience := some []
    education := some []
    projects := some []
    skills := some [("core", ["Python"])] }

/-- Witness for the amended C1 at a concrete record. -/
theorem clean_resume_idem_witness :
    clean_resume tidyRec = .ok tidyRecClean ∧
    clean_resume tidyRecClean = .ok tidyRecClean :=
  ⟨by decide, clean_resume_idem tidyRec tidyRecClean (by decide) (by decide)⟩

/-! ## Claim C3: pruning invariant -/

/-- C3. In every record `clean_resume` returns, each experience entry has a
non-empty title, each education entry a non-empty degree, and each project
entry is a record with a non-empty title: entries with an empty primary
label are pruned. -/
theorem clean_resume_pruned (r r' : Resume) (h : clean_resume r = .ok r') :
    (∀ j ∈ r'.experience.getD [], ∃ t, j.title = some t ∧ t ≠ "") ∧
    (∀ e ∈ r'.education.getD [], ∃ d, e.degree = some d ∧ d ≠ "") ∧
    (∀ p ∈ r'.projects.getD [], ∃ q, p = .inr q ∧ ∃ t, q.title = some t ∧ t ≠ "") := by
  cases hexp : r.experience with
  | none =>
    rw [clean_resume_err_exp r hexp] at h
    exact absurd h (by simp)
  | some exps =>
  cases hedu : r.education with
  | none =>
    rw [clean_resume_err_edu r exps hexp hedu] at h
    exact absurd h (by simp)
  | some edus =>
  rw [clean_resume_ok_shape r exps edus hexp hedu] at h
  injection h with h'
  subst h'
  refine ⟨?_, ?_, ?_⟩
  · intro j hj
    simp only [Option.getD_some] at hj
    have hk := (List.mem_filter.mp hj).2
    obtain ⟨j0, _, rfl⟩ := List.mem_map.mp (List.mem_filter.mp hj).1
    exact ⟨decamel (j0.title.getD (j0.position.getD "")), rfl, by simpa [expKeep, cleanExp] using hk⟩
  · intro e he
    simp only [Option.getD_some] at he
    have hk := (List.mem_filter.mp he).2
    obtain ⟨e0, _, rfl⟩ := List.mem_map.mp (List.mem_filter.mp he).1
    exact ⟨decamel (trimStr (e0.degree.getD "" ++ " " ++ e0.fieldOfStudy.getD "")), rfl,
      by simpa [eduKeep, cleanEdu] using hk⟩
  · intro p hp
    simp only [Option.getD_some] at hp
    have hk := (List.mem_filter.mp hp).2
    obtain ⟨p0, _, rfl⟩ := List.mem_map.mp (List.mem_filter.mp hp).1
    rcases p0 with s | q0
    · exact ⟨_, rfl, decamel s, rfl, by simpa [projKeep, cleanProj] using hk⟩
    · exact ⟨_, rfl, decamel (if q0.title.getD "" = "" then q0.name.getD ""
        else q0.title.getD ""), rfl, by simpa [projKeep, cleanProj] using hk⟩

/-- A record exercising the pruning: one empty experience entry, one titled
one, a bare-string project. -/
def mixedRec : Resume :=
  { headline := none
    contact := none
    experience := some
      [⟨none, none, none, none, none, none, none, none, none, none⟩,
       ⟨some "Dev", none, none, none, none, none, none, none, none, none⟩]
    education := some [⟨some "BSc", none, none, none, none, none, none, none, none, none⟩]
    projects := some [.inl "SitePro"]
    skills := none }

/-- The value of `clean_resume mixedRec`. -/
def mixedRecClean : Resume :=
  { headline := some ""
    contact := none
    experience := some
      [⟨some "Dev", none, some "", some "", some "", none, some "", none, none, none⟩]
    education := some
      [⟨some "BSc", none, some "", some "", some "", none, some "", none, none, none⟩]
    projects := some
      [.inr ⟨some "Site Pro", none, some "", none, some [], none⟩]
    skills := none }

/-- Witness for C3 at a concrete record. -/
theorem clean_resume_pruned_witness :
    clean_resume mixedRec = .ok mixedRecClean ∧
    ((∀ j ∈ mixedRecClean.experience.getD [], ∃ t, j.title = some t ∧ t ≠ "") ∧
     (∀ e ∈ mixedRecClean.education.getD [], ∃ d, e.degree = some d ∧ d ≠ "") ∧
     (∀ p ∈ mixedRecClean.projects.getD [],
        ∃ q, p = .inr q ∧ ∃ t, q.title = some t ∧ t ≠ "")) :=
  ⟨by decide, clean_resume_pruned mixedRec mixedRecClean (by decide)⟩

/-! ## Claim C4: `clean_resume` on records with missing keys -/

/-- The empty record: no keys at all. -/
def bareRec : Resume :=
  { headline := none
    contact := none
    experience := none
    education := none
    projects := none
    skills := none }

/-- A record with an `experience` key but no `education` key. -/
def noEduRec : Resume :=
  { headline := none
    contact := none
    experience := some []
    education := none
    projects := none
    skills := none }

/-- C4 (code bug). Contrary to the claim that missing keys degrade to empty
values, the purge step (`r["experience"]`, `r["education"]` at lines 93–94
of `cleaner.py`) raises `KeyError` when the key is absent: `clean_resume`
is not total on records without those keys. -/
theorem clean_resume_keyerror :
    clean_resume bareRec = .error "KeyError: experience" ∧
    clean_resume noEduRec = .error "KeyError: education" := by
  constructor
  · decide
  · decide

/-! ## Lemmas about the generation/fix loop -/

theorem runAttempts_calls_le (validate : String → List String) (replies : Nat → String) :
    ∀ (fuel attempt : Nat), (runAttempts validate replies attempt fuel).2.1 ≤ fuel + 1 := by
  intro fuel
  induction fuel with
  | zero => intro attempt; simp [runAttempts]
  | succ n ih =>
    intro attempt
    simp only [runAttempts]
    split
    · simp
    · rcases hres : runAttempts validate replies (attempt + 1) n with ⟨h', m, v⟩
      have hm := ih (attempt + 1)
      rw [hres] at hm
      simp only [hres]
      simp at hm ⊢
      omega

theorem runAttempts_exhausted (validate : String → List String) (replies : Nat → String) :
    ∀ (fuel attempt : Nat),
      (∀ k, k ≤ fuel → validate (_extract_html (replies (attempt + k))) ≠ []) →
      runAttempts validate replies attempt fuel
        = (_extract_html (replies (attempt + fuel)), fuel + 1, false) := by
  intro fuel
  induction fuel with
  | zero =>
    intro attempt hf
    have h0 := hf 0 (Nat.le_refl 0)
    rw [Nat.add_zero] at h0
    simp only [runAttempts]
    rw [Nat.add_zero, List.isEmpty_eq_false.mpr h0]
  | succ n ih =>
    intro attempt hf
    have h0 := hf 0 (Nat.zero_le _)
    rw [Nat.add_zero] at h0
    simp only [runAttempts]
    rw [List.isEmpty_eq_false.mpr h0]
    simp only [Bool.false_eq_true, if_false]
    have hrec := ih (attempt + 1) (fun k hk => by
      have hh := hf (k + 1) (Nat.succ_le_succ hk)
      rwa [show attempt + (k + 1) = attempt + 1 + k from by omega] at hh)
    rw [hrec]
    have : attempt + 1 + n = attempt + (n + 1) := by omega
    rw [this]

/-! ## Claim C5: best-effort result of `generate_html_llm` -/

/-- C5 (amended). The generation loop makes at most 3 model calls on any
input; and on a résumé-classified input with a non-empty plan and an HTML
cache miss, if validation fails on every attempt, exactly 3 calls are made
and the last extracted document — possibly the empty string when the model
replies are empty — is both written to the HTML cache and returned. -/
theorem generate_html_best_effort :
    (∀ planRes htmlCache validate replies cb,
      (generate_html_llm planRes htmlCache validate replies cb).chatCalls ≤ 3) ∧
    (∀ (plan : String) (reason : Option String) (validate : String → List String)
        (replies : Nat → String) (cb : Bool), plan ≠ "" →
      (∀ k, k ≤ 2 → validate (_extract_html (replies k)) ≠ []) →
      generate_html_llm (some plan, true, reason) none validate replies cb
        = { html := _extract_html (replies 2)
            cacheWrite := some (_extract_html (replies 2))
            chatCalls := 3
            statuses := [] }) := by
  constructor
  · intro planRes htmlCache validate replies cb
    rcases planRes with ⟨plan?, isr, rsn⟩
    cases isr
    · simp [generate_html_llm]
    · by_cases hp : plan?.getD "" = ""
      · simp [generate_html_llm, hp]
      · cases htmlCache with
        | some hit => simp [generate_html_llm, hp]
        | none =>
          have hb := runAttempts_calls_le validate replies _MAX_FIX_ATTEMPTS 0
          rcases hres : runAttempts validate replies 0 _MAX_FIX_ATTEMPTS with ⟨h', m, v⟩
          rw [hres] at hb
          simp only [generate_html_llm, hp, hres]
          simpa using hb
  · intro plan reason validate replies cb hplan hfail
    have hrun := runAttempts_exhausted validate replies 2 0 (fun k hk => by
      simpa using hfail k hk)
    simp only [generate_html_llm, Option.getD_some]
    rw [if_neg (by simp), if_neg hplan]
    show (match runAttempts validate replies 0 _MAX_FIX_ATTEMPTS with
      | (html, n, _) => GenOutcome.mk html (some html) n []) = _
    rw [show _MAX_FIX_ATTEMPTS = 2 from rfl, hrun]

/-- Witness for the amended C5 at concrete oracles: a validator that always
fails and a model that always replies with the same document. -/
theorem generate_html_best_effort_witness :
    (("p" : String) ≠ "" ∧
      (∀ k, k ≤ 2 → (fun (_ : String) => ["e"]) (_extract_html ((fun _ => "doc") k)) ≠ [])) ∧
    generate_html_llm (some "p", true, none) none (fun _ => ["e"]) (fun _ => "doc") false
      = { html := "doc", cacheWrite := some "doc", chatCalls := 3, statuses := [] } :=
  ⟨⟨by decide, fun k _ => by simp⟩,
    by
      have h := generate_html_best_effort.2 "p" none (fun _ => ["e"]) (fun _ => "doc") false
        (by decide) (fun k _ => by simp)
      simpa using h⟩

/-- C5 counterexample: the returned document is not always non-empty — with
empty model replies and a validator that never passes, the exhausted loop
caches and returns the empty string after 3 attempts. -/
theorem generate_html_exhausted_empty :
    generate_html_llm (some "p", true, none) none (fun _ => ["err"]) (fun _ => "") false
      = { html := "", cacheWrite := some "", chatCalls := 3, statuses := [] } := by
  rfl

/-! ## Claim C6: plan cache transparency -/

/-- A typical résumé-classified model reply: the YAML plan format prescribed
by `_SYSTEM_PROMPT_PLAN` contains no `"PLAN:"` marker. -/
def freshReply : String := "IS_RESUME: TRUE\nsections:\n- name: Home"

/-- C6 (code bug). A second call with identical text makes no model call
(cache hit), but the plan parsed from the cached blob differs from the plan
the fresh path returned for the very same raw reply: the fresh path returns
the whole stripped reply, while the cached path looks for a `"PLAN:"`
marker and falls back to a placeholder. Caching is not transparent. -/
theorem plan_cache_not_transparent :
    (_generate_website_plan none freshReply).chatCalls = 1 ∧
    (_generate_website_plan none freshReply).cacheWrite = some freshReply ∧
    (_generate_website_plan none freshReply).result = (some freshReply, true, none) ∧
    (_generate_website_plan (some freshReply) freshReply).chatCalls = 0 ∧
    (_generate_website_plan (some freshReply) freshReply).result
      = (some planPlaceholder, true, none) ∧
    (_generate_website_plan (some freshReply) freshReply).result
      ≠ (_generate_website_plan none freshReply).result := by
  refine ⟨rfl, by decide, by decide, rfl, by decide, by decide⟩

/-! ## Claim C7: parsing a cached plan blob -/

/-- C7 (code bug). The first line alone does not determine `is_resume`: the
code splits the blob on the literal two-character sequence backslash-`n`
(`"\\n"` in the Python source), not on a newline, so the sentinel is
searched in the whole blob — a blob whose first line lacks the sentinel but
contains it later is still classified as a résumé. The claim's concrete
scenario (`IS_RESUME: FALSE` with a `REASON:` line) does hold. -/
theorem plan_first_line_not_decisive :
    planParseCached "Looks harmless\nIS_RESUME: TRUE\nPLAN: build it"
      = (some "build it", true, none) ∧
    planParseCached "IS_RESUME: FALSE\nREASON: no work history found"
      = (none, false, some "no work history found") := by
  constructor
  · decide
  · decide

/-! ## Claim C8: tweaks never regress structural validity -/

/-- C8 (spec-modelled). One tweak iteration on a structurally valid
document: when the extracted tweaked document fails validation, the tweak
is discarded and the prior valid document is returned unchanged. -/
theorem tweak_preserves_validity (validate : String → List String)
    (current tweakReply : String)
    (hcur : validate current = [])
    (hbad : validate (_extract_html tweakReply) ≠ []) :
    tweakStep validate current tweakReply = current := by
  show (if (validate (_extract_html tweakReply)).isEmpty = true
    then _extract_html tweakReply else current) = current
  rw [List.isEmpty_eq_false.mpr hbad]
  simp

/-- Witness for C8: a validator accepting only `"good"`, a tweak reply that
extracts to something else. -/
theorem tweak_preserves_validity_witness :
    ((fun s => if s = "good" then ([] : List String) else ["e"]) "good" = [] ∧
      (fun s => if s = "good" then ([] : List String) else ["e"]) (_extract_html "bad") ≠ []) ∧
    tweakStep (fun s => if s = "good" then ([] : List String) else ["e"]) "good" "bad"
      = "good" :=
  ⟨⟨by decide, by decide⟩,
    tweak_preserves_validity (fun s => if s = "good" then ([] : List String) else ["e"])
      "good" "bad" (by decide) (by decide)⟩

/-! ## Claim C9: user-edit application is a no-op on failure -/

/-- C9. If the model invocation inside `apply_user_changes_llm` raises, the
original `current_html` is returned unchanged, whatever the validator and
document. -/
theorem apply_user_changes_noop_on_error (validate : String → List String)
    (current_html : String) (e : String) :
    apply_user_changes_llm validate current_html (.error e) = current_html := rfl

/-! ## Claim C10: refusal carries a reason only through the status sink -/

theorem strContains_go_append (p : List Char) :
    ∀ l : List Char, strContains.go p (l ++ p) = true
  | [] => by
    rw [List.nil_append]
    cases p with
    | nil => rfl
    | cons c cs =>
      unfold strContains.go
      simp [ List.isPrefixOf_iff_prefix]
  | c :: rest => by
    show strContains.go p (c :: (rest ++ p)) = true
    unfold strContains.go
    rw [strContains_go_append p rest]
    simp

theorem strContains_append_right (a b : String) : strContains (a ++ b) b = true := by
  show strContains.go b.toList (a ++ b).toList = true
  rw [show (a ++ b).toList = a.toList ++ b.toList from String.data_append a b]
  exact strContains_go_append b.toList a.toList

/-- C10 (amended). In the not-a-résumé case `generate_html_llm` returns the
empty string, makes no generation model call, caches nothing — and the
reason string is delivered only through the optional status callback: when
one is attached, an emitted status message contains the reason. -/
theorem refusal_reports_reason (reason : String) (plan? : Option String)
    (htmlCache : Option String) (validate : String → List String)
    (replies : Nat → String) :
    (generate_html_llm (plan?, false, some reason) htmlCache validate replies true).html = "" ∧
    (generate_html_llm (plan?, false, some reason) htmlCache validate replies true).chatCalls
      = 0 ∧
    (generate_html_llm (plan?, false, some reason) htmlCache validate replies true).cacheWrite
      = none ∧
    ∃ m ∈ (generate_html_llm (plan?, false, some reason) htmlCache validate replies true).statuses,
      strContains m reason = true := by
  refine ⟨rfl, rfl, rfl, ?_⟩
  refine ⟨"❌ The provided text does not appear to be a valid resume. Reason: " ++ reason, ?_, ?_⟩
  · show _ ∈ ["❌ The provided text does not appear to be a valid resume. Reason: " ++
      (some reason).getD "None"]
    simp
  · exact strContains_append_right _ reason

/-- C10 counterexample: without a status callback the caller receives the
bare empty string and the reason is reported nowhere — no reason string
accompanies the refusal result. -/
theorem refusal_reason_lost_without_callback :
    generate_html_llm (none, false, some "no work history found") none
        (fun _ => []) (fun _ => "") false
      = { html := "", cacheWrite := none, chatCalls := 0, statuses := [] } := rfl

end Resume2Site
